import Mathlib

/-!
Verification of the record-management engine of the BibliZap frontend
(`src/frontend/src/results/`): filtering, sorting, selection, export and
pagination of the in-memory list of articles.

Rust strings are modelled as lists of characters (`Str`), `str::to_lowercase`
as character-wise `Char.toLower` (they agree on ASCII, which is all the
reasoning below depends on), `str::contains` as substring containment, and
`i32` values as `Int` (no arithmetic in the modelled code can overflow an
`i32`).  `Vec::sort_by_key`, documented as a stable sort, is modelled by a
stable insertion sort on lists.
-/

namespace BibliZap

/-- Rust strings, modelled as lists of characters. -/
abbrev Str := List Char

/-- Model of `str::to_lowercase` (character-wise ASCII lowercasing). -/
def lower (s : Str) : Str := s.map Char.toLower

/-- Helper for substring containment: `leadsWith pat l` is true when `pat`
is an initial segment of `l`. -/
def leadsWith : Str → Str → Bool
  | [], _ => true
  | _ :: _, [] => false
  | p :: ps, h :: hs => p == h && leadsWith ps hs

/-- Model of Rust `hay.contains(pat)`: `pat` occurs contiguously in `hay`. -/
def strContains : Str → Str → Bool
  | [], pat => pat.isEmpty
  | c :: t, pat => leadsWith pat (c :: t) || strContains t pat

/-- Model of Rust `Option::map_or(default, f)`. -/
def mapOr (o : Option α) (d : β) (f : α → β) : β := (o.map f).getD d

/-- Decimal digits of a natural number, most significant first (fuel-indexed
so that the recursion is structural). -/
def natCharsAux : Nat → Nat → List Char
  | 0, _ => []
  | fuel + 1, n =>
    if n < 10 then [Nat.digitChar n]
    else natCharsAux fuel (n / 10) ++ [Nat.digitChar (n % 10)]

/-- Decimal digit string of a natural number, as produced by Rust
`to_string`. -/
def natChars (n : Nat) : List Char := natCharsAux (n + 1) n

/-- Model of Rust `i32::to_string`: optional minus sign followed by the
decimal digits. -/
def intChars (x : Int) : List Char :=
  if x < 0 then '-' :: natChars (-x).toNat else natChars x.toNat

/-- Model of the `Article` struct of `src/frontend/src/results/article.rs`,
with the same fields in the same order. -/
structure Article where
  first_author : Option Str
  year_published : Option Int
  journal : Option Str
  title : Option Str
  summary : Option Str
  doi : Option Str
  citations : Option Int
  score : Option Int
deriving DecidableEq

/-- Model of the `Filters` struct of `src/frontend/src/results/filter.rs`,
with the same fields in the same order. -/
structure Filters where
  first_author : Str
  year_published : Str
  title : Str
  journal : Str
  summary : Str
  doi : Str
  citations : Str
  score : Str
deriving DecidableEq

/-- Model of `Filters::default()`: every per-column filter is the empty
string. -/
def emptyFilters : Filters := ⟨[], [], [], [], [], [], [], []⟩

/-- Model of `Article::matches_global` (`article.rs`): the pattern is
lowercased once, and each present field is tested for containment (text
fields lowercased, numeric fields via their decimal string); the eight
tests are joined by `|`. -/
def Article.matches_global (a : Article) (pattern : Str) : Bool :=
  let pl := lower pattern
  mapOr a.doi false (fun x => strContains (lower x) pl) ||
  mapOr a.title false (fun x => strContains (lower x) pl) ||
  mapOr a.journal false (fun x => strContains (lower x) pl) ||
  mapOr a.summary false (fun x => strContains (lower x) pl) ||
  mapOr a.first_author false (fun x => strContains (lower x) pl) ||
  mapOr a.year_published false (fun x => strContains (intChars x) pl) ||
  mapOr a.score false (fun x => strContains (intChars x) pl) ||
  mapOr a.citations false (fun x => strContains (intChars x) pl)

/-- Model of `Article::matches` (`article.rs`): conjunction over the eight
columns; every absent field contributes `false` (`map_or(false, ..)`); the
numeric columns test the filter string against the decimal form without
lowercasing the filter. -/
def Article.matches (a : Article) (f : Filters) : Bool :=
  mapOr a.doi false (fun x => strContains (lower x) (lower f.doi)) &&
  mapOr a.title false (fun x => strContains (lower x) (lower f.title)) &&
  mapOr a.journal false (fun x => strContains (lower x) (lower f.journal)) &&
  mapOr a.summary false (fun x => strContains (lower x) (lower f.summary)) &&
  mapOr a.first_author false (fun x => strContains (lower x) (lower f.first_author)) &&
  mapOr a.year_published false (fun x => strContains (intChars x) f.year_published) &&
  mapOr a.score false (fun x => strContains (intChars x) f.score) &&
  mapOr a.citations false (fun x => strContains (intChars x) f.citations)

/-- Case-insensitive containment, as the spec words the per-column test:
lowercase both sides, then test substring containment. -/
def containsCI (hay pat : Str) : Bool := strContains (lower hay) (lower pat)

/-- All eight optional fields of the article are present. -/
abbrev allPresent (a : Article) : Prop :=
  a.first_author.isSome = true ∧ a.year_published.isSome = true ∧
  a.journal.isSome = true ∧ a.title.isSome = true ∧
  a.summary.isSome = true ∧ a.doi.isSome = true ∧
  a.citations.isSome = true ∧ a.score.isSome = true

/-- Stable insertion of an element into a list, keyed by an integer key:
the element is placed before the first position whose key is not smaller.
This models the placement discipline of a stable ascending sort. -/
def insertKey (key : α → Int) (a : α) : List α → List α
  | [] => [a]
  | b :: l => if key a ≤ key b then a :: b :: l else b :: insertKey key a l

/-- Stable ascending sort by an integer key: model of Rust
`Vec::sort_by_key` (documented stable). -/
def sortByKey (key : α → Int) : List α → List α
  | [] => []
  | a :: l => insertKey key a (sortByKey key l)

/-- Ascending reorder of the record store by a key, as performed by
`sort_by_key(|a| a.field.unwrap_or_default())`. -/
def reorderAsc (key : Article → Int) (l : List Article) : List Article :=
  sortByKey key l

/-- Descending reorder of the record store by a key, as performed by
`sort_by_key(|a| Reverse(a.field.unwrap_or_default()))`; ordering by
`Reverse(k)` coincides with ordering by `-k`, with identical ties. -/
def reorderDesc (key : Article → Int) (l : List Article) : List Article :=
  sortByKey (fun a => -(key a)) l

/-- Sort key of the `year_published` column: a missing year sorts as 0
(`unwrap_or_default`). -/
def yearKey (a : Article) : Int := a.year_published.getD 0

/-- Sort key of the `citations` column: missing citations sort as 0. -/
def citationsKey (a : Article) : Int := a.citations.getD 0

/-- Sort key of the `score` column: a missing score sorts as 0. -/
def scoreKey (a : Article) : Int := a.score.getD 0

/-- Model of the `SortState` enum of `src/frontend/src/results/mod.rs`. -/
inductive SortState where
  | none
  | ascending
  | descending
deriving DecidableEq

/-- Model of `SortState::next`: the three-state click cycle. -/
def SortState.next : SortState → SortState
  | SortState.none => SortState.ascending
  | SortState.ascending => SortState.descending
  | SortState.descending => SortState.none

/-- Model of one click on a sortable column header (the `onclick` closure
generated by the `header_cell!` macro in `mod.rs`): advance the column's
sort state, then reorder the store — ascending by the column key, descending
by the column key, or, back at `None`, descending by score. -/
def clickSort (key : Article → Int) (s : SortState × List Article) :
    SortState × List Article :=
  match s.1.next with
  | SortState.none => (SortState.none, reorderDesc scoreKey s.2)
  | SortState.ascending => (SortState.ascending, reorderAsc key s.2)
  | SortState.descending => (SortState.descending, reorderDesc key s.2)

/-- Three successive clicks on the same column header, starting from sort
state `None`. -/
def threeClicks (key : Article → Int) (l : List Article) :
    SortState × List Article :=
  clickSort key (clickSort key (clickSort key (SortState.none, l)))

/-- Model of `get_articles_to_download` (`mod.rs`): empty selection means
the whole store; otherwise keep exactly the articles whose `doi` is a
member of the selection (articles without a `doi` are never kept). -/
def get_articles_to_download (articles : List Article) (selected : List Str) :
    List Article :=
  if selected.isEmpty then articles
  else articles.filter fun a => mapOr a.doi false fun doi => selected.contains doi

/-- Model of the filename qualifier computed by the download callbacks in
`mod.rs`: compare the length of the resolved set with the length of the
full store. -/
def export_suffix (articles : List Article) (selected : List Str) : Str :=
  if (get_articles_to_download articles selected).length = articles.length
  then "all".toList else "selected".toList

/-- Model of the filename format string of the download callbacks:
`BibliZap-{suffix}-{timestamp}.{ext}`. -/
def download_filename (suffix timestamp ext : Str) : Str :=
  "BibliZap-".toList ++ suffix ++ "-".toList ++ timestamp ++
    ".".toList ++ ext

/-- Model of Rust `i32::clamp(lo, hi)` (for `lo ≤ hi`). -/
def iclamp (x lo hi : Int) : Int := min (max x lo) hi

/-- Model of `first_article` in `results` (`mod.rs`):
`(page * per_page).clamp(0, len)`. -/
def firstIdx (n p i : Int) : Int := iclamp (i * p) 0 n

/-- Model of `last_article` in `results` (`mod.rs`): the already clamped
first index plus the page size, clamped again. -/
def lastIdx (n p i : Int) : Int := iclamp (firstIdx n p i + p) 0 n

/-- Model of `total_page_number` in `table_footer` (`footer.rs`): integer
division, i.e. the floor of N over P for the nonnegative values that occur. -/
def totalPages (n p : Int) : Int := n / p

/-- Model of the slice `articles_to_display[first_article..last_article]`. -/
def pageSlice (l : List Article) (p i : Int) : List Article :=
  (l.take (lastIdx l.length p i).toNat).drop (firstIdx l.length p i).toNat

/-- First pass of the window computation in `table_footer`: clamp
`current - radius` to `[0, total]` (radius 2). -/
def windowLow0 (total i : Int) : Int := iclamp (i - 2) 0 total

/-- Second pass: provisional high bound `low + 2R + 1`, clamped. -/
def windowHigh (total i : Int) : Int := iclamp (windowLow0 total i + 5) 0 total

/-- Third pass: the low bound recomputed from the clamped high bound. -/
def windowLow (total i : Int) : Int := iclamp (windowHigh total i - 5) 0 total

/-- Integer interval `[lo, hi)` as a list, the model of the rendered Rust
range `lo..hi`. -/
def intRange (lo hi : Int) : List Int :=
  (List.range (hi - lo).toNat).map fun k : Nat => (lo + k : Int)

/-- Model of the page indices for which `table_footer` renders a `PageItem`
button: the first-page button when the window does not start at 0, the
contiguous window except when it has exactly one element, and the last-page
button when the window does not end at `total`.  The disabled ellipsis
items render no index. -/
def pageButtons (total i : Int) : List Int :=
  (if windowLow total i ≠ 0 then [(0 : Int)] else []) ++
  (if windowHigh total i - windowLow total i ≠ 1 then
    intRange (windowLow total i) (windowHigh total i)
  else []) ++
  (if windowHigh total i ≠ total then [total - 1] else [])

/-- Pagination state of the results view: the visible (filtered) article
count, the page size and the zero-based current page index. -/
structure PagingState where
  total_articles : Int
  per_page : Int
  current : Int
deriving DecidableEq

/-- Events that touch the pagination state: a wholesale reload, a change of
the filtered count (filter keystroke), a sort click, a click on a rendered
page button, and a page-size selection from the dropdown. -/
inductive PageEvent where
  | load (n : Int)
  | filterChange (n : Int)
  | sortClick
  | pageSelect (j : Int)
  | pageSizeSelect (v : Int)

/-- Transition function of the pagination state, read off the component
code: mounting creates page 0 with page size 10 (`use_state` initialisers
in `mod.rs`); a filter change only changes the visible count; a sort click
changes neither count nor index; a page button stores its index
(`PageItem` onclick in `footer.rs`); a page-size item stores 0 then the new
size (`ArticlesPerPageDropdownItem` onclick). -/
def pageStep (s : PagingState) : PageEvent → PagingState
  | PageEvent.load n => ⟨n, 10, 0⟩
  | PageEvent.filterChange n => ⟨n, s.per_page, s.current⟩
  | PageEvent.sortClick => s
  | PageEvent.pageSelect j => ⟨s.total_articles, s.per_page, j⟩
  | PageEvent.pageSizeSelect v => ⟨s.total_articles, v, 0⟩

/-- Which events the UI can actually deliver in a given state: counts are
nonnegative, only rendered page buttons can be clicked, and the page size
comes from the fixed dropdown set. -/
def validEvent (s : PagingState) : PageEvent → Bool
  | PageEvent.load n => decide (0 ≤ n)
  | PageEvent.filterChange n => decide (0 ≤ n)
  | PageEvent.sortClick => true
  | PageEvent.pageSelect j =>
    (pageButtons (totalPages s.total_articles s.per_page) s.current).contains j
  | PageEvent.pageSizeSelect v => v == 10 || v == 50 || v == 100 || v == 500

/-- Invariant claimed by the spec for the current page index. -/
abbrev pageInv (s : PagingState) : Prop :=
  0 ≤ s.current ∧ s.current < max 1 (totalPages s.total_articles s.per_page)

/-- Basic well-formedness of a pagination state: nonnegative count,
positive page size. -/
abbrev wfPaging (s : PagingState) : Prop :=
  0 ≤ s.total_articles ∧ 0 < s.per_page

/-- Article with every optional field absent. -/
def artEmpty : Article := ⟨none, none, none, none, none, none, none, none⟩

/-- Article with score 5 and 1 citation (all text fields absent). -/
def artTieA : Article := ⟨none, none, none, none, none, none, some 1, some 5⟩

/-- Article with score 5 and 2 citations (all text fields absent). -/
def artTieB : Article := ⟨none, none, none, none, none, none, some 2, some 5⟩

/-- Article with score 9 (distinct from `artScore5`). -/
def artScore9 : Article := ⟨none, none, none, none, none, none, some 0, some 9⟩

/-- Article with score 5 (distinct from `artScore9`). -/
def artScore5 : Article := ⟨none, none, none, none, none, none, some 0, some 5⟩

/-- Article that carries a doi (and nothing textual besides it). -/
def artWithDoi : Article :=
  ⟨none, none, none, none, none, some "10.1/x".toList, some 1, some 2⟩

/-- Fully populated article, used as a witness input. -/
def artFull : Article :=
  ⟨some "a".toList, some 2020, some "j".toList, some "t".toList,
   some "s".toList, some "d".toList, some 3, some 4⟩

/-- Pagination state reached by loading 60 articles. -/
def c9s1 : PagingState := pageStep ⟨0, 10, 0⟩ (PageEvent.load 60)

/-- Pagination state reached by then clicking the rendered page button 5. -/
def c9s2 : PagingState := pageStep c9s1 (PageEvent.pageSelect 5)

/-- Pagination state reached by then shrinking the filtered count to 3. -/
def c9s3 : PagingState := pageStep c9s2 (PageEvent.filterChange 3)


/-! ### String lemmas -/
/-- Empty pattern is contained in every string. -/
theorem strContains_nil (hay : Str) : strContains hay [] = true := by
  cases hay <;> simp [strContains, leadsWith]

theorem leadsWith_mem {pat l : Str} (h : leadsWith pat l = true) :
    ∀ c ∈ pat, c ∈ l := by
  induction pat generalizing l with
  | nil => intro c hc; cases hc
  | cons p ps ih =>
    cases l with
    | nil => simp [leadsWith] at h
    | cons q qs =>
      simp only [leadsWith, Bool.and_eq_true, beq_iff_eq] at h
      intro c hc
      rcases List.mem_cons.mp hc with rfl | hc
      · exact h.1 ▸ List.mem_cons_self _ _
      · exact List.mem_cons_of_mem _ (ih h.2 c hc)

theorem strContains_mem {hay pat : Str} (h : strContains hay pat = true) :
    ∀ c ∈ pat, c ∈ hay := by
  induction hay with
  | nil =>
    simp only [strContains, List.isEmpty_iff] at h
    subst h; intro c hc; cases hc
  | cons q qs ih =>
    simp only [strContains, Bool.or_eq_true] at h
    rcases h with h | h
    · exact leadsWith_mem h
    · intro c hc; exact List.mem_cons_of_mem _ (ih h c hc)

theorem natCharsAux_mem {c : Char} :
    ∀ {fuel n : Nat}, c ∈ natCharsAux fuel n → ∃ d, d < 10 ∧ c = Nat.digitChar d := by
  intro fuel
  induction fuel with
  | zero => intro n h; cases h
  | succ f ih =>
    intro n h
    simp only [natCharsAux] at h
    split at h
    · next hn => exact ⟨n, hn, (List.mem_singleton.mp h).symm ▸ rfl⟩
    · rcases List.mem_append.mp h with h | h
      · exact ih h
      · exact ⟨n % 10, Nat.mod_lt _ (by omega), (List.mem_singleton.mp h)⟩

theorem intChars_toNat {x : Int} :
    ∀ c ∈ intChars x, c.toNat = 45 ∨ (48 ≤ c.toNat ∧ c.toNat ≤ 57) := by
  intro c hc
  have digit : ∀ d, d < 10 → 48 ≤ (Nat.digitChar d).toNat ∧ (Nat.digitChar d).toNat ≤ 57 := by
    decide
  unfold intChars at hc
  split at hc
  · rcases List.mem_cons.mp hc with rfl | hc
    · left; rfl
    · obtain ⟨d, hd, rfl⟩ := natCharsAux_mem hc
      exact Or.inr (digit d hd)
  · obtain ⟨d, hd, rfl⟩ := natCharsAux_mem hc
    exact Or.inr (digit d hd)

theorem toLower_eq_self {c : Char} (h : ¬(65 ≤ c.toNat ∧ c.toNat ≤ 90)) :
    c.toLower = c := by
  unfold Char.toLower
  rw [if_neg]
  intro hcon
  exact h ⟨hcon.1, hcon.2⟩

theorem intChars_toLower_fixed {x : Int} : ∀ c ∈ intChars x, c.toLower = c := by
  intro c hc
  rcases intChars_toNat c hc with h | h <;> exact toLower_eq_self (by omega)

theorem lower_intChars (x : Int) : lower (intChars x) = intChars x := by
  unfold lower
  rw [List.map_congr_left (fun c hc => intChars_toLower_fixed c hc), List.map_id']

theorem toLower_toNat_of_ne {c : Char} (h : c.toLower ≠ c) :
    97 ≤ c.toLower.toNat ∧ c.toLower.toNat ≤ 122 := by
  have key : ∀ n, n < 91 → 65 ≤ n → (Char.ofNat (n + 32)).toNat = n + 32 := by decide
  unfold Char.toLower at h ⊢
  by_cases hc : 65 ≤ c.toNat ∧ c.toNat ≤ 90
  · rw [if_pos hc]
    rw [key c.toNat (by omega) hc.1]
    omega
  · exact absurd (by rw [if_neg (fun hcon => hc ⟨hcon.1, hcon.2⟩)]) h

theorem strContains_lower_intChars (x : Int) (f : Str) :
    strContains (intChars x) (lower f) = strContains (intChars x) f := by
  by_cases hall : ∀ c ∈ f, c.toLower = c
  · have : lower f = f := by
      unfold lower
      rw [List.map_congr_left hall, List.map_id']
    rw [this]
  · push_neg at hall
    obtain ⟨c, hc, hne⟩ := hall
    have h1 : strContains (intChars x) f = false := by
      rcases hb : strContains (intChars x) f with _ | _
      · rfl
      · exact absurd (intChars_toLower_fixed c (strContains_mem hb c hc)) hne
    have h2 : strContains (intChars x) (lower f) = false := by
      rcases hb : strContains (intChars x) (lower f) with _ | _
      · rfl
      · have hmem : c.toLower ∈ intChars x :=
          strContains_mem hb _ (List.mem_map_of_mem _ hc)
        have := toLower_toNat_of_ne hne
        rcases intChars_toNat _ hmem with h | h <;> omega
    rw [h1, h2]

theorem containsCI_intChars (x : Int) (f : Str) :
    containsCI (intChars x) f = strContains (intChars x) f := by
  unfold containsCI
  rw [lower_intChars, strContains_lower_intChars]

theorem mapOr_eq_true_iff {o : Option α} {f : α → Bool} :
    mapOr o false f = true ↔ ∃ v, o = some v ∧ f v = true := by
  cases o <;> simp [mapOr]

/-! ### Stable sorting lemmas -/
theorem insertKey_perm (key : α → Int) (a : α) (l : List α) :
    (insertKey key a l).Perm (a :: l) := by
  induction l with
  | nil => exact List.Perm.refl _
  | cons b l ih =>
    unfold insertKey
    split
    · exact List.Perm.refl _
    · exact (ih.cons b).trans (List.Perm.swap a b l)

theorem sortByKey_perm (key : α → Int) (l : List α) :
    (sortByKey key l).Perm l := by
  induction l with
  | nil => exact List.Perm.refl _
  | cons a l ih => exact (insertKey_perm key a _).trans (ih.cons a)

theorem mem_insertKey {key : α → Int} {a x : α} {l : List α} :
    x ∈ insertKey key a l ↔ x = a ∨ x ∈ l := by
  rw [(insertKey_perm key a l).mem_iff, List.mem_cons]

theorem pairwise_insertKey {key : α → Int} {a : α} {l : List α}
    (h : l.Pairwise (fun x y => key x ≤ key y)) :
    (insertKey key a l).Pairwise (fun x y => key x ≤ key y) := by
  induction l with
  | nil => simp [insertKey]
  | cons b l ih =>
    unfold insertKey
    split
    · next hab =>
      refine List.Pairwise.cons ?_ h
      intro x hx
      rcases List.mem_cons.mp hx with rfl | hx
      · exact hab
      · exact le_trans hab (List.rel_of_pairwise_cons h hx)
    · next hab =>
      refine List.Pairwise.cons ?_ (ih h.tail)
      intro x hx
      rcases mem_insertKey.mp hx with rfl | hx
      · omega
      · exact List.rel_of_pairwise_cons h hx

theorem sortByKey_pairwise (key : α → Int) (l : List α) :
    (sortByKey key l).Pairwise (fun x y => key x ≤ key y) := by
  induction l with
  | nil => simp [sortByKey]
  | cons a l ih => exact pairwise_insertKey ih

theorem insertKey_filterKey (key : α → Int) (v : Int) (a : α) (l : List α) :
    (insertKey key a l).filter (fun x => key x == v) =
      ((a :: l).filter (fun x => key x == v)) := by
  induction l with
  | nil => rfl
  | cons b l ih =>
    unfold insertKey
    split
    · rfl
    · next hab =>
      rcases hb : (key b == v) with _ | _
      · simp only [List.filter_cons, ih]
        simp [hb]
      · have ha : (key a == v) = false := by
          have : key b = v := by simpa using hb
          simp only [beq_eq_false_iff_ne, ne_eq]
          omega
        simp only [List.filter_cons, ih]
        simp [hb, ha]

theorem sortByKey_filterKey (key : α → Int) (v : Int) (l : List α) :
    (sortByKey key l).filter (fun x => key x == v) =
      l.filter (fun x => key x == v) := by
  induction l with
  | nil => rfl
  | cons a l ih =>
    unfold sortByKey
    rw [insertKey_filterKey, List.filter_cons, List.filter_cons, ih]

theorem eq_of_perm_of_pairwise_strict (key : α → Int) :
    ∀ {l₁ l₂ : List α}, l₁.Perm l₂ →
      l₁.Pairwise (fun x y => key x < key y) →
      l₂.Pairwise (fun x y => key x ≤ key y) → l₂ = l₁ := by
  intro l₁
  induction l₁ with
  | nil => intro l₂ hp _ _; exact hp.nil_eq.symm
  | cons a t ih =>
    intro l₂ hp h1 h2
    cases l₂ with
    | nil => exact absurd hp.symm (by simp)
    | cons b t₂ =>
      have hba : b = a := by
        by_contra hne
        have hbmem : b ∈ a :: t := hp.mem_iff.mpr (List.mem_cons_self _ _)
        have hamem : a ∈ b :: t₂ := hp.mem_iff.mp (List.mem_cons_self _ _)
        rcases List.mem_cons.mp hbmem with rfl | hbt
        · exact hne rfl
        · rcases List.mem_cons.mp hamem with heq | hat
          · exact hne heq.symm
          · have hlt : key a < key b := List.rel_of_pairwise_cons h1 hbt
            have hle : key b ≤ key a := List.rel_of_pairwise_cons h2 hat
            omega
      subst hba
      have := ih hp.cons_inv h1.tail h2.tail
      rw [this]

/-! ### Pagination range and button lemmas -/
theorem mem_intRange {lo hi j : Int} : j ∈ intRange lo hi ↔ lo ≤ j ∧ j < hi := by
  unfold intRange
  rw [List.mem_map]
  constructor
  · rintro ⟨k, hk, rfl⟩
    rw [List.mem_range, ← Int.ofNat_lt] at hk
    simp only [Int.ofNat_toNat] at hk
    omega
  · rintro ⟨h1, h2⟩
    refine ⟨(j - lo).toNat, ?_, ?_⟩
    · rw [List.mem_range, ← Int.ofNat_lt]
      simp only [Int.ofNat_toNat]
      omega
    · simp only [Int.ofNat_toNat]
      omega

theorem pageButtons_sub {total i j : Int} (htotal : 0 ≤ total)
    (h : j ∈ pageButtons total i) : 0 ≤ j ∧ j < total := by
  have hw : 0 ≤ windowLow0 total i ∧ windowLow0 total i ≤ total := by
    unfold windowLow0 iclamp; omega
  have hh : 0 ≤ windowHigh total i ∧ windowHigh total i ≤ total := by
    unfold windowHigh iclamp; omega
  have hl : 0 ≤ windowLow total i ∧ windowLow total i ≤ windowHigh total i := by
    unfold windowLow iclamp; omega
  unfold pageButtons at h
  rcases List.mem_append.mp h with h | h
  · rcases List.mem_append.mp h with h | h
    · split at h
      · next hlo =>
        have : j = 0 := List.mem_singleton.mp h
        subst this
        omega
      · cases h
    · split at h
      · have := mem_intRange.mp h
        omega
      · cases h
  · split at h
    · next hhi =>
      have : j = total - 1 := List.mem_singleton.mp h
      subst this
      omega
    · cases h

/-! ### Integer division lemmas for the page count -/
theorem totalPages_floor {n p : Int} (_hn : 0 ≤ n) (hp : 0 < p) :
    totalPages n p * p ≤ n ∧ n < (totalPages n p + 1) * p := by
  have key : p * (n / p) + n % p = n := Int.ediv_add_emod n p
  have h1 : 0 ≤ n % p := Int.emod_nonneg n (by omega)
  have h2 : n % p < p := Int.emod_lt_of_pos n hp
  unfold totalPages
  constructor
  · rw [mul_comm]
    linarith
  · rw [add_mul, one_mul, mul_comm]
    linarith

theorem totalPages_nonneg {n p : Int} (hn : 0 ≤ n) (hp : 0 < p) :
    0 ≤ totalPages n p :=
  Int.ediv_nonneg hn (le_of_lt hp)

theorem totalPages_pos {n p : Int} (hp : 0 < p) (hpn : p < n) :
    0 < totalPages n p := by
  have key : p * (n / p) + n % p = n := Int.ediv_add_emod n p
  have h2 : n % p < p := Int.emod_lt_of_pos n hp
  unfold totalPages
  by_contra hq
  push_neg at hq
  have hmul : p * (n / p) ≤ p * 0 := mul_le_mul_of_nonneg_left hq (le_of_lt hp)
  rw [mul_zero] at hmul
  omega

theorem lastIdx_reachable {n p : Int} (hn : 0 ≤ n) (hp : 0 < p) :
    ∀ j, 0 ≤ j → j < totalPages n p → lastIdx n p j = j * p + p ∧ j * p + p ≤ totalPages n p * p := by
  intro j hj hjlt
  have hfloor := totalPages_floor hn hp
  have hmul : (j + 1) * p ≤ totalPages n p * p :=
    mul_le_mul_of_nonneg_right (by omega) (le_of_lt hp)
  rw [add_mul, one_mul] at hmul
  have hjp : 0 ≤ j * p := mul_nonneg hj (le_of_lt hp)
  have hle : j * p + p ≤ n := le_trans hmul hfloor.1
  have hfirst : firstIdx n p j = j * p := by
    unfold firstIdx iclamp
    omega
  constructor
  · unfold lastIdx
    rw [hfirst]
    unfold iclamp
    omega
  · exact hmul

/-! ### Window membership lemmas -/
theorem window_facts (total i : Int) (htotal : 2 ≤ total) :
    0 ≤ windowLow total i ∧
    windowLow total i ≤ windowHigh total i ∧
    windowHigh total i ≤ total ∧
    2 ≤ windowHigh total i - windowLow total i ∧
    (5 ≤ total → windowHigh total i - windowLow total i = 5) := by
  unfold windowLow windowHigh windowLow0 iclamp
  omega

theorem mem_pageButtons_window {total i j : Int} (htotal : 2 ≤ total)
    (h1 : windowLow total i ≤ j) (h2 : j < windowHigh total i) :
    j ∈ pageButtons total i := by
  have hf := window_facts total i htotal
  unfold pageButtons
  refine List.mem_append.mpr (Or.inl (List.mem_append.mpr (Or.inr ?_)))
  rw [if_pos (by omega)]
  exact mem_intRange.mpr ⟨h1, h2⟩

theorem zero_mem_pageButtons {total i : Int} (htotal : 2 ≤ total) :
    (0 : Int) ∈ pageButtons total i := by
  have hf := window_facts total i htotal
  by_cases hlo : windowLow total i = 0
  · exact mem_pageButtons_window htotal (by omega) (by omega)
  · unfold pageButtons
    refine List.mem_append.mpr (Or.inl (List.mem_append.mpr (Or.inl ?_)))
    rw [if_pos hlo]
    exact List.mem_singleton.mpr rfl

theorem last_mem_pageButtons {total i : Int} (htotal : 2 ≤ total) :
    total - 1 ∈ pageButtons total i := by
  have hf := window_facts total i htotal
  by_cases hhi : windowHigh total i = total
  · exact mem_pageButtons_window htotal (by omega) (by omega)
  · unfold pageButtons
    refine List.mem_append.mpr (Or.inr ?_)
    rw [if_pos hhi]
    exact List.mem_singleton.mpr rfl

/-! ### Claims C1 and C2: the filter predicates -/
/-- C1, counterexample: the claim says the empty global pattern accepts every
record, including one whose eight optional fields are all absent; on the code,
`matches_global` has no empty-pattern shortcut, and the all-absent record is
rejected even by the empty pattern. -/
theorem C1_counterexample :
    Article.matches_global artEmpty "".toList = false := by decide

/-- C1, amended: `matches_global R ""` is true for every record R that has at
least one of its eight optional fields present; a record with all eight fields
absent fails even the empty pattern (see the counterexample). -/
theorem C1_amended (a : Article)
    (h : a.first_author.isSome = true ∨ a.year_published.isSome = true ∨
         a.journal.isSome = true ∨ a.title.isSome = true ∨
         a.summary.isSome = true ∨ a.doi.isSome = true ∨
         a.citations.isSome = true ∨ a.score.isSome = true) :
    a.matches_global "".toList = true := by
  have hnil : ("".toList : Str) = [] := rfl
  rw [hnil]
  rcases h with h | h | h | h | h | h | h | h <;>
    obtain ⟨v, hv⟩ := Option.isSome_iff_exists.mp h <;>
    simp [Article.matches_global, mapOr, hv, lower, strContains_nil]

/-- C1, witness: the amended theorem applied to a concrete record having a
present field. -/
theorem C1_witness : Article.matches_global artTieA "".toList = true :=
  C1_amended artTieA (by decide)

/-- C2: `matches R F` is the conjunction over all eight columns of "the field
is present AND its value (text fields case-insensitively, numeric fields via
their decimal string form, over which case-insensitivity makes no difference)
contains the column filter"; consequently a record with every field present
satisfies the all-empty filter set, and a record missing any field is rejected
even when that column filter is empty. -/
theorem C2_column_filter_semantics (a : Article) (F : Filters) :
    (a.matches F = true ↔
      ((∃ v, a.doi = some v ∧ containsCI v F.doi = true) ∧
       (∃ v, a.title = some v ∧ containsCI v F.title = true) ∧
       (∃ v, a.journal = some v ∧ containsCI v F.journal = true) ∧
       (∃ v, a.summary = some v ∧ containsCI v F.summary = true) ∧
       (∃ v, a.first_author = some v ∧ containsCI v F.first_author = true) ∧
       (∃ x, a.year_published = some x ∧ containsCI (intChars x) F.year_published = true) ∧
       (∃ x, a.score = some x ∧ containsCI (intChars x) F.score = true) ∧
       (∃ x, a.citations = some x ∧ containsCI (intChars x) F.citations = true))) ∧
    (allPresent a → a.matches emptyFilters = true) ∧
    ((a.first_author = none ∨ a.year_published = none ∨ a.journal = none ∨
      a.title = none ∨ a.summary = none ∨ a.doi = none ∨
      a.citations = none ∨ a.score = none) → a.matches F = false) := by
  refine ⟨?_, ?_, ?_⟩
  · simp [Article.matches, Bool.and_eq_true, mapOr_eq_true_iff, containsCI,
      lower_intChars, strContains_lower_intChars]
    tauto
  · rintro ⟨h1, h2, h3, h4, h5, h6, h7, h8⟩
    obtain ⟨v1, hv1⟩ := Option.isSome_iff_exists.mp h1
    obtain ⟨v2, hv2⟩ := Option.isSome_iff_exists.mp h2
    obtain ⟨v3, hv3⟩ := Option.isSome_iff_exists.mp h3
    obtain ⟨v4, hv4⟩ := Option.isSome_iff_exists.mp h4
    obtain ⟨v5, hv5⟩ := Option.isSome_iff_exists.mp h5
    obtain ⟨v6, hv6⟩ := Option.isSome_iff_exists.mp h6
    obtain ⟨v7, hv7⟩ := Option.isSome_iff_exists.mp h7
    obtain ⟨v8, hv8⟩ := Option.isSome_iff_exists.mp h8
    simp [Article.matches, mapOr, emptyFilters, hv1, hv2, hv3, hv4, hv5, hv6,
      hv7, hv8, lower, strContains_nil]
  · rintro (h | h | h | h | h | h | h | h) <;> simp [Article.matches, mapOr, h]

/-- C2, witness: a fully populated record passes the all-empty filter set. -/
theorem C2_witness : Article.matches artFull emptyFilters = true :=
  (C2_column_filter_semantics artFull emptyFilters).2.1 (by decide)

/-! ### Claims C3 and C4: the sort controller -/
/-- C3, counterexample: a store of two records tied on score (so already in
descending-score order) is not returned to its original order by three clicks
on the citations column: the intermediate descending-citations sort reverses
the pair, and the final stable descending-score sort keeps that reversed order
of the tied pair. -/
theorem C3_counterexample :
    List.Pairwise (fun a b => scoreKey b ≤ scoreKey a) [artTieA, artTieB] ∧
    (threeClicks citationsKey [artTieA, artTieB]).1 = SortState.none ∧
    (threeClicks citationsKey [artTieA, artTieB]).2 ≠ [artTieA, artTieB] := by
  decide

/-- C3, amended: three clicks on a sortable column starting from sort state
`None` return the state to `None` and leave the store a permutation of its
content that is stably sorted in weakly descending score order; the store
returns to exactly its pre-click order when its scores were strictly
descending (pairwise distinct) before the first click. -/
theorem C3_sort_cycle (key : Article → Int) (l : List Article) :
    (threeClicks key l).1 = SortState.none ∧
    ((threeClicks key l).2).Perm l ∧
    ((threeClicks key l).2).Pairwise (fun a b => scoreKey b ≤ scoreKey a) ∧
    (l.Pairwise (fun a b => scoreKey b < scoreKey a) → (threeClicks key l).2 = l) := by
  have hred : threeClicks key l =
      (SortState.none, reorderDesc scoreKey (reorderDesc key (reorderAsc key l))) := rfl
  rw [hred]
  have hperm : (reorderDesc scoreKey (reorderDesc key (reorderAsc key l))).Perm l :=
    ((sortByKey_perm _ _).trans (sortByKey_perm _ _)).trans (sortByKey_perm _ _)
  refine ⟨rfl, hperm, ?_, ?_⟩
  · exact (sortByKey_pairwise _ _).imp (fun h => by omega)
  · intro hstrict
    exact eq_of_perm_of_pairwise_strict (fun a => -(scoreKey a)) hperm.symm
      (hstrict.imp (fun h => by dsimp only; omega))
      (sortByKey_pairwise _ _)

/-- C3, witness: with strictly descending scores the three-click cycle is the
identity on the store. -/
theorem C3_witness :
    (threeClicks citationsKey [artScore9, artScore5]).2 = [artScore9, artScore5] :=
  (C3_sort_cycle citationsKey [artScore9, artScore5]).2.2.2 (by decide)

/-- C4: every reorder of the record store (ascending or descending, by any of
the integer column keys) is a stable sort — the records carrying any fixed key
value keep their relative order — and each sortable column key maps a missing
optional value to 0, the numeric default. -/
theorem C4_reorder_stable (key : Article → Int) (v : Int) (l : List Article) :
    ((reorderAsc key l).filter (fun a => key a == v) =
       l.filter (fun a => key a == v) ∧
     (reorderDesc key l).filter (fun a => key a == v) =
       l.filter (fun a => key a == v)) ∧
    ((∀ a : Article, a.year_published = none → yearKey a = 0) ∧
     (∀ a : Article, a.citations = none → citationsKey a = 0) ∧
     (∀ a : Article, a.score = none → scoreKey a = 0)) := by
  have hpt : ∀ a : Article, (key a == v) = ((-(key a) : Int) == -v) := by
    intro a
    by_cases h : key a = v
    · simp [h]
    · have h2 : ¬(-(key a) = -v) := by omega
      simp [h, h2]
  refine ⟨⟨sortByKey_filterKey key v l, ?_⟩, ?_, ?_, ?_⟩
  · calc (reorderDesc key l).filter (fun a => key a == v)
        = (reorderDesc key l).filter (fun a => (-(key a) : Int) == -v) :=
          List.filter_congr (fun a _ => hpt a)
      _ = l.filter (fun a => (-(key a) : Int) == -v) :=
          sortByKey_filterKey (fun a => -(key a)) (-v) l
      _ = l.filter (fun a => key a == v) :=
          List.filter_congr (fun a _ => (hpt a).symm)
  · intro a h; simp [yearKey, h]
  · intro a h; simp [citationsKey, h]
  · intro a h; simp [scoreKey, h]

/-- C4, witness: stability at a concrete tie, and the missing-year key. -/
theorem C4_witness :
    (reorderDesc citationsKey [artTieA, artTieB]).filter
        (fun a => citationsKey a == 5) =
      [artTieA, artTieB].filter (fun a => citationsKey a == 5) ∧
    yearKey artEmpty = 0 :=
  ⟨(C4_reorder_stable citationsKey 5 [artTieA, artTieB]).1.2,
   (C4_reorder_stable citationsKey 5 [artTieA, artTieB]).2.1 artEmpty rfl⟩

/-! ### Claims C5 and C6: selection and export -/
/-- C5: at export time an empty selection resolves to the whole record store;
a non-empty selection resolves to exactly the members of the full, unfiltered
store whose identifier belongs to the selection, so a record excluded by both
the global and the column filters is still exported when selected. -/
theorem C5_export_selection (articles : List Article) (selected : List Str) :
    (selected = [] → get_articles_to_download articles selected = articles) ∧
    (selected ≠ [] → ∀ a : Article,
      (a ∈ get_articles_to_download articles selected ↔
        a ∈ articles ∧ ∃ d, a.doi = some d ∧ d ∈ selected)) ∧
    (∀ (a : Article) (d pat : Str) (F : Filters),
      a ∈ articles → a.doi = some d → d ∈ selected →
      a.matches_global pat = false → a.matches F = false →
      a ∈ get_articles_to_download articles selected) := by
  have hmem : selected ≠ [] → ∀ a : Article,
      (a ∈ get_articles_to_download articles selected ↔
        a ∈ articles ∧ ∃ d, a.doi = some d ∧ d ∈ selected) := by
    intro hne a
    unfold get_articles_to_download
    rw [if_neg (by simpa using hne)]
    rw [List.mem_filter]
    simp [mapOr_eq_true_iff, List.contains, List.elem_iff]
  refine ⟨?_, hmem, ?_⟩
  · intro h; subst h; simp [get_articles_to_download]
  · intro a d pat F ha hdoi hdsel _ _
    exact (hmem (List.ne_nil_of_mem hdsel) a).mpr ⟨ha, d, hdoi, hdsel⟩

/-- C5, witness: a selected record that matches neither the global pattern
"zzz" nor the default column filters (its title is absent) is still in the
resolved export set. -/
theorem C5_witness :
    artWithDoi ∈ get_articles_to_download [artWithDoi] ["10.1/x".toList] :=
  (C5_export_selection [artWithDoi] ["10.1/x".toList]).2.2 artWithDoi
    "10.1/x".toList "zzz".toList emptyFilters (by decide) (by decide) (by decide)
    (by decide) (by decide)

/-- C6: the produced filename is `BibliZap-<qualifier>-<timestamp>.<ext>`, and
the qualifier is "selected" exactly when the resolved record set is a strict
sublist of the full store (the resolved set always being a sublist, the code
length test is equivalent), and "all" otherwise — in particular "all" when the
selection is empty. -/
theorem C6_export_filename (articles : List Article) (selected : List Str)
    (ts ext : Str) :
    download_filename (export_suffix articles selected) ts ext =
      "BibliZap-".toList ++ export_suffix articles selected ++ "-".toList ++
        ts ++ ".".toList ++ ext ∧
    (get_articles_to_download articles selected).Sublist articles ∧
    (export_suffix articles selected = "selected".toList ↔
      get_articles_to_download articles selected ≠ articles) ∧
    (selected = [] → export_suffix articles selected = "all".toList) := by
  have hsub : (get_articles_to_download articles selected).Sublist articles := by
    unfold get_articles_to_download
    split
    · exact List.Sublist.refl _
    · exact List.filter_sublist _
  refine ⟨rfl, hsub, ?_, ?_⟩
  · unfold export_suffix
    by_cases hlen : (get_articles_to_download articles selected).length
        = articles.length
    · rw [if_pos hlen]
      have heq := hsub.eq_of_length hlen
      constructor
      · intro hcon; exact absurd hcon (by decide)
      · intro hne; exact absurd heq hne
    · rw [if_neg hlen]
      constructor
      · intro _ heq; exact hlen (by rw [heq])
      · intro _; rfl
  · intro h; subst h; simp [export_suffix, get_articles_to_download]

/-- C6, witness: empty selection yields the "all" qualifier. -/
theorem C6_witness : export_suffix [artTieA] [] = "all".toList :=
  (C6_export_filename [artTieA] [] [] []).2.2.2 rfl

/-! ### Claims C7 to C10: pagination -/
/-- C7, counterexample: for N = 25 and P = 10 the pagination arithmetic gives
total_pages = 2 and the last offered page (index total_pages - 1 = 1) has
slice length 10, not N - (total_pages - 1) * P = 15 as the claim asserts. -/
theorem C7_counterexample :
    totalPages 25 10 = 2 ∧
    lastIdx 25 10 1 - firstIdx 25 10 1 = 10 ∧
    lastIdx 25 10 1 - firstIdx 25 10 1 ≠ 25 - (totalPages 25 10 - 1) * 10 := by
  decide

/-- C7, amended: the visible slice is [clamp(iP, 0, N), clamp(iP + P, 0, N))
(the second clamp being applied to the already clamped first bound changes
nothing for nonnegative inputs), and total_pages is the floor of N over P; for
N = 25, P = 10 this gives total_pages = 2 and a last-page slice of length 10,
the full page size. -/
theorem C7_pagination (n p i : Int) (hn : 0 ≤ n) (hp : 0 ≤ p) (hi : 0 ≤ i) :
    (firstIdx n p i = iclamp (i * p) 0 n ∧
     lastIdx n p i = iclamp (i * p + p) 0 n) ∧
    (0 < p → totalPages n p * p ≤ n ∧ n < (totalPages n p + 1) * p) ∧
    (totalPages 25 10 = 2 ∧ lastIdx 25 10 1 - firstIdx 25 10 1 = 10) := by
  refine ⟨⟨rfl, ?_⟩, fun hp0 => totalPages_floor hn hp0, by decide⟩
  have h0 : 0 ≤ i * p := mul_nonneg hi hp
  obtain ⟨T, hT⟩ : ∃ T, i * p = T := ⟨_, rfl⟩
  unfold lastIdx firstIdx iclamp
  rw [hT] at h0 ⊢
  omega

/-- C7, witness: the clamp characterisation of the slice upper bound at the
concrete instance N = 25, P = 10, i = 1. -/
theorem C7_witness : lastIdx 25 10 1 = iclamp (1 * 10 + 10) 0 25 :=
  ((C7_pagination 25 10 1 (by decide) (by decide) (by decide)).1).2

/-- C8, counterexample: with exactly one page the renderer exposes no page
button at all — the one-element window is suppressed and both edge-button
conditions fail — contradicting the claim that a button for page 0 and for the
last page index is always exposed. -/
theorem C8_counterexample :
    pageButtons 1 0 = [] ∧ (0 : Int) ∉ pageButtons 1 0 := by decide

/-- C8, amended: whenever at least two pages exist, the renderer exposes a
button for page 0 and for the last page index, every index of the two-pass
clamped window of radius 2 is exposed, and the window is exactly 5 wide
whenever at least 5 pages exist. -/
theorem C8_page_window (total i : Int) (htotal : 2 ≤ total) :
    (0 : Int) ∈ pageButtons total i ∧
    total - 1 ∈ pageButtons total i ∧
    (∀ j, windowLow total i ≤ j → j < windowHigh total i →
      j ∈ pageButtons total i) ∧
    (5 ≤ total → windowHigh total i - windowLow total i = 5) :=
  ⟨zero_mem_pageButtons htotal, last_mem_pageButtons htotal,
   fun _ h1 h2 => mem_pageButtons_window htotal h1 h2,
   (window_facts total i htotal).2.2.2.2⟩

/-- C8, witness: page 0 is exposed as soon as two pages exist. -/
theorem C8_witness : (0 : Int) ∈ pageButtons 2 0 :=
  (C8_page_window 2 0 (by decide)).1

/-- C9, counterexample: a valid event trace — load 60 records, click the
rendered button for page 5, then shrink the filtered count to 3 — leaves the
current page index at 5 although max(1, total_pages) = 1: a filter change does
not re-clamp the index, so the claimed invariant fails after that operation. -/
theorem C9_counterexample :
    validEvent ⟨0, 10, 0⟩ (PageEvent.load 60) = true ∧
    validEvent c9s1 (PageEvent.pageSelect 5) = true ∧
    validEvent c9s2 (PageEvent.filterChange 3) = true ∧
    pageInv c9s1 ∧ pageInv c9s2 ∧ ¬ pageInv c9s3 := by decide

/-- C9, amended: the index invariant 0 ≤ index < max(1, total_pages) holds
after a load, after a page-size selection (which also resets the index to 0,
as claimed), and after clicking any rendered page button; filter changes and
sort clicks leave the index unchanged, so the invariant can fail after a
filter change that shrinks the page count (see the counterexample). -/
theorem C9_page_index_invariant (s : PagingState) (hwf : wfPaging s) :
    (∀ n, 0 ≤ n → pageInv (pageStep s (PageEvent.load n))) ∧
    (∀ v, pageInv (pageStep s (PageEvent.pageSizeSelect v)) ∧
      (pageStep s (PageEvent.pageSizeSelect v)).current = 0) ∧
    (∀ j, validEvent s (PageEvent.pageSelect j) = true →
      pageInv (pageStep s (PageEvent.pageSelect j))) ∧
    (∀ n, (pageStep s (PageEvent.filterChange n)).current = s.current) ∧
    pageStep s PageEvent.sortClick = s := by
  refine ⟨?_, ?_, ?_, fun _ => rfl, rfl⟩
  · intro n _
    exact ⟨le_refl 0, lt_max_of_lt_left one_pos⟩
  · intro v
    exact ⟨⟨le_refl 0, lt_max_of_lt_left one_pos⟩, rfl⟩
  · intro j hv
    have hmemb : j ∈ pageButtons (totalPages s.total_articles s.per_page) s.current := by
      simpa [validEvent, List.contains, List.elem_iff] using hv
    have hb := pageButtons_sub (totalPages_nonneg hwf.1 hwf.2) hmemb
    exact ⟨hb.1, lt_of_lt_of_le hb.2 (le_max_right 1 _)⟩

/-- C9, witness: clicking the rendered button for page 5 from a 60-record,
10-per-page state keeps the invariant. -/
theorem C9_witness : pageInv (pageStep ⟨60, 10, 0⟩ (PageEvent.pageSelect 5)) :=
  (C9_page_index_invariant ⟨60, 10, 0⟩ (by decide)).2.2.1 5 (by decide)

/-- C10: every page index offered by the pagination renderer is strictly below
total_pages = floor(N/P); for every such index the slice ends at or before
total_pages * P = N - N mod P, so when P does not divide N and N > P the final
N mod P records are never displayed by any reachable page selection. -/
theorem C10_unreachable_tail (n p i : Int) (hp : 0 < p) (hpn : p < n)
    (hmod : n % p ≠ 0) :
    0 < totalPages n p ∧
    (∀ j, j ∈ pageButtons (totalPages n p) i → 0 ≤ j ∧ j < totalPages n p) ∧
    (∀ j, 0 ≤ j → j < totalPages n p → lastIdx n p j ≤ n - n % p) ∧
    n - n % p < n := by
  have hn : 0 ≤ n := by omega
  have key : p * (n / p) + n % p = n := Int.ediv_add_emod n p
  have hmodpos : 0 ≤ n % p := Int.emod_nonneg n (by omega)
  refine ⟨totalPages_pos hp hpn, ?_, ?_, by omega⟩
  · intro j hj
    exact pageButtons_sub (totalPages_nonneg hn hp) hj
  · intro j hj hjlt
    obtain ⟨heq, hle⟩ := lastIdx_reachable hn hp j hj hjlt
    rw [heq]
    have htp : totalPages n p * p = p * (n / p) := by
      unfold totalPages; exact mul_comm _ _
    linarith

/-- C10, witness: at N = 25, P = 10 the last offered page's slice stops at
position 20, leaving the final 5 records undisplayed. -/
theorem C10_witness : lastIdx 25 10 1 ≤ 25 - 25 % 10 :=
  (C10_unreachable_tail 25 10 0 (by decide) (by decide) (by decide)).2.2.1 1
    (by decide) (by decide)

end BibliZap
